import Mathlib

/-!
Verification of the reth read-API wiring program (`src/main.rs`) against its
natural-language specification.

The program builds a read-only Ethereum execution-layer access stack: it opens
a node database, builds a mainnet chain spec, wires a `BlockchainProvider`,
two `EthStateCache` instances, a transaction pool with `CoinbaseTipOrdering`,
a `FeeHistoryCache` and a `GasPriceOracle` into an `EthApi`, then subscribes
to canonical-state notifications and loops over them.

Definitions are shallow embeddings of the source where the source contains the
code (`main`, `get_reth_api`, the notification `match`), and models built from
the specification's words for the library components whose code the repository
only calls (state cache semantics, tip ordering, fee-history window, gas-price
oracle, replacement policy, bounded broadcast subscription); those carry a
`Modelled from the spec:` doc comment.
-/

/-- A block reference: hash, number, parent hash (spec section 3, "Block
reference"). Hashes are modelled as natural numbers. -/
structure BlockRef where
  hash : Nat
  number : Nat
  parentHash : Nat
deriving DecidableEq

/-- Canonical-state notification as destructured exhaustively by the `match`
in `main` (src/main.rs lines 41-49): exactly the two variants
`Commit { new }` and `Reorg { old, new }`. -/
inductive CanonStateNotification where
  | Commit (new : List BlockRef)
  | Reorg (old : List BlockRef) (new : List BlockRef)
deriving DecidableEq

/-- The body of the `match` in `main` (src/main.rs lines 41-49): a `Reorg`
prints both its `old` and `new` chains, a `Commit` prints its `new` chain. -/
def printOutputs : CanonStateNotification → List (List BlockRef)
  | .Reorg old new => [old, new]
  | .Commit new => [new]

/-- Errors `broadcast::Receiver::recv` can return in `main`'s loop:
the subscriber lagged, or the channel closed. -/
inductive RecvError where
  | Lagged (missed : Nat)
  | Closed
deriving DecidableEq

/-- The `while let Ok(notification) = stream.recv().await` loop of `main`
(src/main.rs lines 40-50), run over a trace of `recv` results. Returns the
printed outputs and the events left unreceived when the loop exits: an `Ok`
event is processed and the loop continues; the first error event ends the
loop, consuming only that event. -/
def mainLoop : List (Except RecvError CanonStateNotification) →
    List (List BlockRef) × List (Except RecvError CanonStateNotification)
  | [] => ([], [])
  | .ok n :: rest =>
      let r := mainLoop rest
      (printOutputs n ++ r.1, r.2)
  | .error _ :: rest => ([], rest)

/-- Observable outcome of `main` after `get_reth_api` succeeded: the returned
`Result`, everything printed, the `recv` events never received, and how many
times `subscribe_to_canonical_state` was called. -/
structure MainOutcome where
  result : Except String Unit
  printed : List (List BlockRef)
  unreceived : List (Except RecvError CanonStateNotification)
  subscribeCalls : Nat

/-- Model of `main` (src/main.rs lines 35-53) after `get_reth_api` succeeded:
it subscribes exactly once, runs the `while let Ok` loop over the stream of
`recv` results, and then returns `Ok(())` unconditionally — the loop header
discards any `recv` error without propagating or resubscribing. -/
def mainModel (events : List (Except RecvError CanonStateNotification)) :
    MainOutcome :=
  let r := mainLoop events
  { result := Except.ok (), printed := r.1, unreceived := r.2
    subscribeCalls := 1 }

/-- Chain identity carried by a chain spec. -/
inductive Chain where
  | mainnet
  | sepolia
  | holesky
deriving DecidableEq

/-- Chain specification, as far as the wiring code observes it: which chain
it is for. -/
structure ChainSpec where
  chain : Chain
deriving DecidableEq

/-- The chain-spec builder used at src/main.rs line 68. -/
structure ChainSpecBuilder where
  chain : Chain
deriving DecidableEq

/-- `ChainSpecBuilder::mainnet()`: a builder for the Ethereum mainnet spec. -/
def ChainSpecBuilder.mainnet : ChainSpecBuilder :=
  { chain := Chain.mainnet }

/-- `ChainSpecBuilder::build()`: finalize the builder into a spec. -/
def ChainSpecBuilder.build (b : ChainSpecBuilder) : ChainSpec :=
  { chain := b.chain }

/-- A read-only node database, abstracted to its key-value contents. -/
structure DatabaseEnv where
  contents : List (Nat × Nat)
deriving DecidableEq

/-- Handle to one spawned `EthStateCache` service instance, identified by
which spawn created it. -/
structure EthStateCache where
  cacheId : Nat
deriving DecidableEq

/-- The task executor threaded through the spawns, tracking the next fresh
cache-instance identifier. -/
structure TaskSpawner where
  nextId : Nat
deriving DecidableEq

/-- Modelled from the spec: `EthStateCache::spawn_with` (reth library code,
called at src/main.rs lines 93 and 113 but not itself under src/) constructs
a fresh, explicitly owned cache instance backed by its own service task
("explicitly owned, constructed-once instances passed by reference", spec
section 9); each call yields a distinct instance with its own empty store. -/
def EthStateCache.spawn_with (s : TaskSpawner) : EthStateCache × TaskSpawner :=
  ({ cacheId := s.nextId }, { nextId := s.nextId + 1 })

/-- The gas-price oracle as wired at src/main.rs line 127: it holds the state
cache it was given. -/
structure GasPriceOracleHandle where
  cache : EthStateCache
deriving DecidableEq

/-- The fee-history cache as wired at src/main.rs lines 112-120: it holds the
state cache it was given. -/
structure FeeHistoryCache where
  cache : EthStateCache
deriving DecidableEq

/-- `FeeHistoryCache::new(cache, config)` as called at src/main.rs line 112. -/
def FeeHistoryCache.new (c : EthStateCache) : FeeHistoryCache :=
  { cache := c }

/-- The `EthApi` value assembled by `get_reth_api`, restricted to the wiring
the claims observe. -/
structure RethApi where
  chainSpec : ChainSpec
  stateCache : EthStateCache
  oracle : GasPriceOracleHandle
  feeHistory : FeeHistoryCache
deriving DecidableEq

/-- Failures of the fallible steps of `get_reth_api`. -/
inductive WiringError where
  | DbOpenFailed
  | StaticFilesFailed
deriving DecidableEq

/-- Model of `get_reth_api` (src/main.rs lines 64-138): open the database
read-only at `path/db`, build the mainnet chain spec, open the static files at
`path/static_files`, spawn a state cache for the `EthApi`, spawn a second
state cache inside `FeeHistoryCache::new`, and wire the oracle with the first
cache. The database and static-file openers are the environment. -/
def get_reth_api
    (openDb : String → Except WiringError DatabaseEnv)
    (openStaticFiles : String → Except WiringError Unit)
    (path : String) (tasks : TaskSpawner) : Except WiringError RethApi :=
  match openDb (path ++ "/db") with
  | .error e => .error e
  | .ok _db =>
    let spec := ChainSpecBuilder.mainnet.build
    match openStaticFiles (path ++ "/static_files") with
    | .error e => .error e
    | .ok _ =>
      let sc := EthStateCache.spawn_with tasks
      let fc := EthStateCache.spawn_with sc.2
      let fee_history := FeeHistoryCache.new fc.1
      Except.ok
        { chainSpec := spec
          stateCache := sc.1
          oracle := { cache := sc.1 }
          feeHistory := fee_history }

/-- The world of all spawned cache instances: each instance identifier owns
its own association list of cached key-value pairs. -/
def CacheWorld : Type := Nat → List (Nat × Nat)

/-- Populate one cache instance with a key-value pair; only that instance's
store changes. -/
def cacheInsert (w : CacheWorld) (c : EthStateCache) (k v : Nat) : CacheWorld :=
  fun i => if i = c.cacheId then (k, v) :: w i else w i

/-- Read a key through one cache instance: only that instance's store is
consulted. -/
def cacheGet (w : CacheWorld) (c : EthStateCache) (k : Nat) : Option Nat :=
  ((w c.cacheId).find? (fun p => p.1 == k)).map Prod.snd

/-- A state-cache entry (spec section 3, "CacheEntry"): key, value, and the
block at which the value was read. -/
structure CacheEntry where
  key : Nat
  value : Nat
  valid_at_block : BlockRef
deriving DecidableEq

/-- Modelled from the spec: the StateCache component (spec section 4.2; the
reth implementation behind `EthStateCache::spawn_with` is not under src/).
It tracks the current canonical chain (oldest block first, last element the
head) and a set of cached entries. -/
structure StateCache where
  canonical : List BlockRef
  entries : List CacheEntry
deriving DecidableEq

/-- Check that a chain of blocks links parent-to-child starting from a given
block (spec section 3, CanonicalState invariant). -/
def linkedFrom : BlockRef → List BlockRef → Bool
  | _, [] => true
  | prev, b :: rest =>
      (b.parentHash == prev.hash) && (b.number == prev.number + 1) &&
        linkedFrom b rest

/-- The common-ancestor part of the canonical chain kept by a reorg that
discards the suffix `old`. -/
def commonStem (canonical old : List BlockRef) : List BlockRef :=
  canonical.take (canonical.length - old.length)

/-- Modelled from the spec: well-formedness of a `Commit` notification — the
new blocks link onto the current head (spec section 3, ChainNotification
invariant). -/
def commitValid (s : StateCache) (new : List BlockRef) : Bool :=
  match s.canonical.getLast? with
  | none => true
  | some h => linkedFrom h new

/-- Modelled from the spec: well-formedness of a `Reorg` notification against
the current canonical chain — `old` is a nonempty suffix of the canonical
chain, its blocks do not reappear on the kept common-ancestor stem, and `old`
and `new` fork from the same parent (spec section 3: "the first element of
`old`/`new` shares the same parent as the pre-reorg head['s branch]"). -/
def reorgValid (s : StateCache) (old new : List BlockRef) : Prop :=
  old ≠ [] ∧
  old.length ≤ s.canonical.length ∧
  s.canonical.drop (s.canonical.length - old.length) = old ∧
  (∀ b ∈ commonStem s.canonical old, b ∉ old) ∧
  old.head?.map BlockRef.parentHash = new.head?.map BlockRef.parentHash

instance (s : StateCache) (old new : List BlockRef) :
    Decidable (reorgValid s old new) := by
  unfold reorgValid
  infer_instance

/-- An operation processed by the state cache: a populate-on-read insert of a
value read at a canonical block, or a chain notification. -/
inductive CacheOp where
  | insert (key value : Nat) (b : BlockRef)
  | notify (n : CanonStateNotification)
deriving DecidableEq

/-- Modelled from the spec: one step of the state cache (spec section 4.2).
Inserts cache a value read at a block of the canonical chain. On `Commit`,
entries are kept and the chain is extended. On `Reorg`, every entry whose
`valid_at_block` lies on the discarded branch (`old`) is evicted, entries on
the common-ancestor stem are kept, and the chain becomes stem plus `new`.
Ill-formed operations (insert at a non-canonical block, notification not
matching the current chain) are rejected with `none`. -/
def StateCache.applyOp (s : StateCache) : CacheOp → Option StateCache
  | .insert k v b =>
      if b ∈ s.canonical then
        some { s with entries := ⟨k, v, b⟩ :: s.entries }
      else none
  | .notify (.Commit new) =>
      if commitValid s new then
        some { s with canonical := s.canonical ++ new }
      else none
  | .notify (.Reorg old new) =>
      if reorgValid s old new then
        some { canonical := commonStem s.canonical old ++ new
               entries := s.entries.filter
                 (fun e => decide (e.valid_at_block ∉ old)) }
      else none

/-- Run the state cache over a sequence of operations; fails if any operation
is ill-formed. -/
def StateCache.run (s : StateCache) : List CacheOp → Option StateCache
  | [] => some s
  | op :: rest =>
      match s.applyOp op with
      | some s' => s'.run rest
      | none => none

/-- Modelled from the spec: `get(block_ref, key) -> Option<Value>` (spec
section 4.2) — return the cached value for this key read at this block, if
present. -/
def StateCache.get (s : StateCache) (b : BlockRef) (k : Nat) : Option Nat :=
  (s.entries.find? (fun e => e.key == k && e.valid_at_block == b)).map
    CacheEntry.value

/-- A block is an ancestor of (or equal to) the current canonical head
exactly when it lies on the canonical chain. -/
def isAncestorOfHead (s : StateCache) (b : BlockRef) : Prop :=
  b ∈ s.canonical

/-- A pooled transaction (spec section 3, "PooledTransaction") together with
its pool-assigned arrival order (`submissionId`, spec section 4.5 tie-break). -/
structure PooledTransaction where
  hash : Nat
  sender : Nat
  nonce : Nat
  feeCap : Nat
  gasLimit : Nat
  submissionId : Nat
deriving DecidableEq

/-- Modelled from the spec: effective priority fee to the block proposer —
the tip left after subtracting the base fee from the transaction's
gas-price/fee-cap (spec sections 4.5 and glossary); saturating at zero. -/
def effectiveTip (baseFee : Nat) (tx : PooledTransaction) : Nat :=
  tx.feeCap - baseFee

/-- Modelled from the spec: the pool ordering (`CoinbaseTipOrdering` at
src/main.rs line 58; its code is not under src/) — rank by effective priority
fee descending, ties broken by earlier submission (spec section 4.5). -/
def ranksBefore (baseFee : Nat) (a b : PooledTransaction) : Bool :=
  decide (effectiveTip baseFee b < effectiveTip baseFee a) ||
    (decide (effectiveTip baseFee a = effectiveTip baseFee b) &&
      decide (a.submissionId < b.submissionId))

/-- A fee sample (spec section 3, "FeeSample"): block number, base fee,
gas-used ratio (scaled to an integer), and pre-sorted percentile rewards. -/
structure FeeSample where
  block_number : Nat
  base_fee_per_gas : Nat
  gas_used_ratio : Nat
  reward_percentiles : List (Nat × Nat)
deriving DecidableEq

/-- Modelled from the spec: the FeeHistoryCache rolling window (spec sections
3 and 4.3; the reth implementation behind `FeeHistoryCache::new` at
src/main.rs line 112 is not under src/). Samples are kept oldest first; the
window holds the most recent `capacity` samples, oldest evicted first. -/
structure FeeHistoryWindow where
  capacity : Nat
  samples : List FeeSample
deriving DecidableEq

/-- Modelled from the spec: `record(FeeSample)` appends the sample and evicts
the oldest samples when the window exceeds its capacity (strict FIFO). -/
def FeeHistoryWindow.record (s : FeeHistoryWindow) (fs : FeeSample) :
    FeeHistoryWindow :=
  { s with
    samples :=
      if s.capacity < (s.samples ++ [fs]).length then
        (s.samples ++ [fs]).drop ((s.samples ++ [fs]).length - s.capacity)
      else s.samples ++ [fs] }

/-- Error returned by fee-history range queries. -/
inductive FeeHistoryError where
  | InsufficientHistory
deriving DecidableEq

/-- Modelled from the spec: `range_query(first_block, block_count)` fails with
`InsufficientHistory` when the requested range extends before the window's
oldest retained sample (also when nothing is retained); otherwise it returns
the retained samples whose block numbers fall in the requested range, in
window (block-number) order. -/
def FeeHistoryWindow.range_query (s : FeeHistoryWindow)
    (first_block block_count : Nat) :
    Except FeeHistoryError (List FeeSample) :=
  match s.samples.head? with
  | none => .error .InsufficientHistory
  | some oldest =>
      if first_block < oldest.block_number then .error .InsufficientHistory
      else
        .ok (s.samples.filter (fun fs =>
          decide (first_block ≤ fs.block_number) &&
            decide (fs.block_number < first_block + block_count)))

/-- Rejection of a transaction submission. -/
inductive SubmitError where
  | Underpriced
deriving DecidableEq

/-- Pool configuration: the minimum replacement price bump, in percent. -/
structure PoolConfig where
  priceBumpPercent : Nat
deriving DecidableEq

/-- Modelled from the spec: the transaction pool store (spec section 4.5; the
reth pool built by `Pool::eth_pool` at src/main.rs line 106 is not under
src/), restricted to what the replacement rule observes. -/
structure TxPool where
  config : PoolConfig
  txs : List PooledTransaction
deriving DecidableEq

/-- Two transactions occupy the same pool slot when they share sender and
nonce. -/
def sameSenderNonce (a b : PooledTransaction) : Bool :=
  a.sender == b.sender && a.nonce == b.nonce

/-- Modelled from the spec: the replacement acceptance rule — the incoming
transaction's priority fee must strictly exceed the existing one's and do so
by at least the configured minimum bump percentage (spec section 4.5). -/
def bumpSatisfied (cfg : PoolConfig) (oldTx newTx : PooledTransaction)
    (baseFee : Nat) : Bool :=
  decide (effectiveTip baseFee oldTx < effectiveTip baseFee newTx) &&
    decide (effectiveTip baseFee oldTx * (100 + cfg.priceBumpPercent) ≤
      effectiveTip baseFee newTx * 100)

/-- Modelled from the spec: `submit(PooledTransaction)` (spec sections 4.5 and
6). If a transaction with the same sender and nonce is already pooled, the
newcomer replaces it only when the bump rule is satisfied, else the submission
is rejected with `Underpriced` and the pool is unchanged; with no conflict the
transaction is added. Returns the result and the resulting pool. -/
def TxPool.submit (p : TxPool) (baseFee : Nat) (tx : PooledTransaction) :
    Except SubmitError Nat × TxPool :=
  match p.txs.find? (fun t => sameSenderNonce t tx) with
  | some oldTx =>
      if bumpSatisfied p.config oldTx tx baseFee then
        (.ok tx.hash,
          { p with
            txs := tx :: p.txs.filter (fun t => !sameSenderNonce t tx) })
      else (.error .Underpriced, p)
  | none => (.ok tx.hash, { p with txs := tx :: p.txs })

/-- Failure of the gas-price oracle. -/
inductive OracleError where
  | NoSamplesAvailable
deriving DecidableEq

/-- Modelled from the spec: `GasPriceOracle::suggest_price` (spec section 4.4;
the reth oracle built by `GasPriceOracle::new` at src/main.rs line 127 is not
under src/). The sample window is given as the per-block lists of effective
gas prices of the last K canonical blocks. Blocks with zero transactions are
skipped (they contribute no sample); if every block in the window is empty the
oracle fails with `NoSamplesAvailable`; otherwise the samples are sorted
ascending and the value at the configured percentile (nearest rank) is
returned. -/
def suggest_price (blocks : List (List Nat)) (percentile : Nat) :
    Except OracleError Nat :=
  let samples := (blocks.filter (fun b => !b.isEmpty)).flatten
  if samples.isEmpty then .error .NoSamplesAvailable
  else
    let sorted := samples.mergeSort (fun a b => decide (a ≤ b))
    .ok (sorted.getD ((samples.length * percentile + 99) / 100 - 1) 0)

/-- Modelled from the spec: the per-subscriber bounded broadcast channel
(spec sections 4.1, 5 and 9; design note: the source's print-and-continue
loop leaves the policy to the spec's bounded-buffer design). The channel
retains the most recent `capacity` notifications of everything ever sent;
`history` lists every notification ever sent, oldest first. -/
structure BroadcastChannel where
  capacity : Nat
  history : List CanonStateNotification
deriving DecidableEq

/-- Number of notifications ever sent on the channel. -/
def BroadcastChannel.sentCount (ch : BroadcastChannel) : Nat :=
  ch.history.length

/-- Index of the oldest notification still retained in the bounded buffer. -/
def BroadcastChannel.oldestRetained (ch : BroadcastChannel) : Nat :=
  ch.sentCount - ch.capacity

/-- Modelled from the spec: the producer's send — it appends to the stream
unconditionally, never waiting on any subscriber (spec section 4.1: "no
subscriber may block another", the producer is dropped-subscriber-safe). -/
def BroadcastChannel.send (ch : BroadcastChannel)
    (n : CanonStateNotification) : BroadcastChannel :=
  { ch with history := ch.history ++ [n] }

/-- A subscriber handle: the index of the next notification it will read. -/
structure Subscriber where
  cursor : Nat
deriving DecidableEq

/-- `subscribe()` hands out a fresh handle positioned at the current end of
the stream. -/
def BroadcastChannel.subscribe (ch : BroadcastChannel) : Subscriber :=
  { cursor := ch.sentCount }

/-- Outcome of a subscriber's receive. -/
inductive RecvOutcome where
  | Received (n : CanonStateNotification) (next : Subscriber)
  | LaggedBy (missed : Nat)
  | Pending
deriving DecidableEq

/-- Modelled from the spec: the subscriber's receive. If the subscriber's
cursor has been overrun by the bounded buffer it gets a lagged error naming
how many notifications it missed (spec section 7, `Lagged`); otherwise it
receives exactly the next notification in send order, or waits (`Pending`)
when it has consumed everything sent so far. -/
def BroadcastChannel.recv (ch : BroadcastChannel) (sub : Subscriber) :
    RecvOutcome :=
  if sub.cursor < ch.oldestRetained then
    .LaggedBy (ch.oldestRetained - sub.cursor)
  else
    match ch.history[sub.cursor]? with
    | some n => .Received n { cursor := sub.cursor + 1 }
    | none => .Pending

/-- A concrete genesis-like block used in concrete evaluations. -/
def blockG : BlockRef := { hash := 100, number := 0, parentHash := 99 }

/-- A concrete block extending `blockG`. -/
def blockA : BlockRef := { hash := 101, number := 1, parentHash := 100 }

/-- A concrete block extending `blockA`. -/
def blockB : BlockRef := { hash := 102, number := 2, parentHash := 101 }

/-- A concrete competing block at height 1, sibling of `blockA`. -/
def blockA2 : BlockRef := { hash := 103, number := 1, parentHash := 100 }

/-- A concrete transaction with fee cap 6 (tip 5 at base fee 1), submitted
first. -/
def txTip5 : PooledTransaction :=
  { hash := 1, sender := 1, nonce := 0, feeCap := 6, gasLimit := 21000
    submissionId := 1 }

/-- A concrete transaction with fee cap 4 (tip 3 at base fee 1), submitted
second. -/
def txTip3 : PooledTransaction :=
  { hash := 2, sender := 2, nonce := 0, feeCap := 4, gasLimit := 21000
    submissionId := 2 }

/-- A concrete replacement candidate for `txTip5`: same sender and nonce,
fee cap 13 (tip 12 at base fee 1). -/
def txBump : PooledTransaction :=
  { hash := 3, sender := 1, nonce := 0, feeCap := 13, gasLimit := 21000
    submissionId := 3 }

/-- A database opener that always succeeds with an empty database. -/
def openDbOk : String → Except WiringError DatabaseEnv :=
  fun _ => Except.ok { contents := [] }

/-- A static-file opener that always succeeds. -/
def openStaticOk : String → Except WiringError Unit :=
  fun _ => Except.ok ()

/-- The API value `get_reth_api` produces from `openDbOk`/`openStaticOk` with
fresh cache identifiers starting at 0. -/
def apiFixture : RethApi :=
  { chainSpec := { chain := Chain.mainnet }
    stateCache := { cacheId := 0 }
    oracle := { cache := { cacheId := 0 } }
    feeHistory := { cache := { cacheId := 1 } } }

/-- A concrete operation sequence for the state cache: populate at the
genesis block, commit two blocks, populate at the first of them, then reorg
those two blocks away in favour of a sibling branch. -/
def opsFixture : List CacheOp :=
  [CacheOp.insert 7 42 blockG,
   CacheOp.notify (CanonStateNotification.Commit [blockA, blockB]),
   CacheOp.insert 8 43 blockA,
   CacheOp.notify (CanonStateNotification.Reorg [blockA, blockB] [blockA2])]

/-- The state the cache reaches after `opsFixture`: the entry read at the
discarded `blockA` is evicted, the entry read at `blockG` survives. -/
def cacheFixture : StateCache :=
  { canonical := [blockG, blockA2]
    entries := [{ key := 7, value := 42, valid_at_block := blockG }] }

/-- A concrete fee sample at a given block number. -/
def feeSampleAt (n : Nat) : FeeSample :=
  { block_number := n, base_fee_per_gas := 7, gas_used_ratio := 50
    reward_percentiles := [] }

/-- A concrete pool holding `txTip5` and `txTip3`, with a 10 percent
replacement bump requirement. -/
def poolFixture : TxPool :=
  { config := { priceBumpPercent := 10 }, txs := [txTip5, txTip3] }

/-- A concrete broadcast channel of capacity 2 on which four notifications
have been sent, so the two oldest are no longer retained. -/
def chanFixture : BroadcastChannel :=
  { capacity := 2
    history := [CanonStateNotification.Commit [blockG],
      CanonStateNotification.Commit [blockA],
      CanonStateNotification.Reorg [blockA] [blockA2],
      CanonStateNotification.Commit [blockB]] }

/-- C2: every chain notification is exactly one of the two variants — a
`Commit` carrying the ordered appended blocks, or a `Reorg` carrying both the
discarded `old` chain and the adopted `new` chain — and `main`'s handler
receives both sequences from a `Reorg` and the one sequence from a `Commit`. -/
theorem C2_notification_exactly_two_variants :
    (∀ n : CanonStateNotification,
      (∃ new, n = CanonStateNotification.Commit new) ∨
        (∃ old new, n = CanonStateNotification.Reorg old new)) ∧
    (∀ old new,
      printOutputs (CanonStateNotification.Reorg old new) = [old, new]) ∧
    (∀ new, printOutputs (CanonStateNotification.Commit new) = [new]) := by
  refine ⟨?_, fun _ _ => rfl, fun _ => rfl⟩
  intro n
  cases n with
  | Commit new => exact Or.inl ⟨new, rfl⟩
  | Reorg old new => exact Or.inr ⟨old, new, rfl⟩

/-- C9: when `recv` returns any error after a run of successful receives,
`main` exits its loop having consumed nothing past the error, returns
`Ok(())` without propagating the error, and never subscribes a second time. -/
theorem C9_recv_error_swallowed
    (pre post : List (Except RecvError CanonStateNotification))
    (e : RecvError) (h : ∀ x ∈ pre, ∃ n, x = Except.ok n) :
    (mainModel (pre ++ Except.error e :: post)).result = Except.ok () ∧
    (mainModel (pre ++ Except.error e :: post)).unreceived = post ∧
    (mainModel (pre ++ Except.error e :: post)).subscribeCalls = 1 := by
  have key : ∀ pre2 : List (Except RecvError CanonStateNotification),
      (∀ x ∈ pre2, ∃ n, x = Except.ok n) →
      (mainLoop (pre2 ++ Except.error e :: post)).2 = post := by
    intro pre2
    induction pre2 with
    | nil => intro _; rfl
    | cons x xs ih =>
        intro hall
        obtain ⟨n, rfl⟩ := hall x (List.mem_cons_self x xs)
        simpa [mainLoop] using ih (fun y hy => hall y (List.mem_cons_of_mem _ hy))
  exact ⟨rfl, key pre h, rfl⟩

theorem C9_recv_error_swallowed_witness :
    (∀ x ∈ ([] : List (Except RecvError CanonStateNotification)),
      ∃ n, x = Except.ok n) ∧
    ((mainModel ([] ++ Except.error RecvError.Closed ::
        [Except.ok (CanonStateNotification.Commit [blockA])])).result =
          Except.ok () ∧
      (mainModel ([] ++ Except.error RecvError.Closed ::
        [Except.ok (CanonStateNotification.Commit [blockA])])).unreceived =
          [Except.ok (CanonStateNotification.Commit [blockA])] ∧
      (mainModel ([] ++ Except.error RecvError.Closed ::
        [Except.ok (CanonStateNotification.Commit [blockA])])).subscribeCalls =
          1) :=
  ⟨by simp, C9_recv_error_swallowed []
    [Except.ok (CanonStateNotification.Commit [blockA])] RecvError.Closed
    (by simp)⟩

/-- Any successful run of `get_reth_api` yields exactly the wiring the source
builds: mainnet chain spec, a first fresh state cache shared by the `EthApi`
and the oracle, and a second fresh state cache owned by the fee-history
cache. -/
theorem get_reth_api_ok_shape
    (openDb : String → Except WiringError DatabaseEnv)
    (openStaticFiles : String → Except WiringError Unit)
    (path : String) (tasks : TaskSpawner) (api : RethApi)
    (h : get_reth_api openDb openStaticFiles path tasks = Except.ok api) :
    api = { chainSpec := { chain := Chain.mainnet }
            stateCache := { cacheId := tasks.nextId }
            oracle := { cache := { cacheId := tasks.nextId } }
            feeHistory := { cache := { cacheId := tasks.nextId + 1 } } } := by
  unfold get_reth_api at h
  cases hdb : openDb (path ++ "/db") with
  | error e => rw [hdb] at h; exact Except.noConfusion h
  | ok db =>
    rw [hdb] at h
    cases hsf : openStaticFiles (path ++ "/static_files") with
    | error e => rw [hsf] at h; exact Except.noConfusion h
    | ok u =>
      rw [hsf] at h
      injection h with h2
      exact h2.symm

/-- C8: for every input path and database environment, a successfully
constructed API carries the chain spec built by `ChainSpecBuilder::mainnet`,
hence Ethereum mainnet — independent of the path argument and of the opened
database's contents. -/
theorem C8_chain_spec_always_mainnet
    (openDb : String → Except WiringError DatabaseEnv)
    (openStaticFiles : String → Except WiringError Unit)
    (path : String) (tasks : TaskSpawner) (api : RethApi)
    (h : get_reth_api openDb openStaticFiles path tasks = Except.ok api) :
    api.chainSpec = ChainSpecBuilder.mainnet.build ∧
    api.chainSpec.chain = Chain.mainnet := by
  have hs := get_reth_api_ok_shape openDb openStaticFiles path tasks api h
  subst hs
  exact ⟨rfl, rfl⟩

theorem C8_chain_spec_always_mainnet_witness :
    get_reth_api openDbOk openStaticOk "node" { nextId := 0 } =
      Except.ok apiFixture ∧
    (apiFixture.chainSpec = ChainSpecBuilder.mainnet.build ∧
      apiFixture.chainSpec.chain = Chain.mainnet) :=
  ⟨rfl, C8_chain_spec_always_mainnet openDbOk openStaticOk "node"
    { nextId := 0 } apiFixture rfl⟩

/-- Writing through one cache instance leaves reads through an instance with
a different identifier unchanged. -/
theorem cacheGet_cacheInsert_ne (w : CacheWorld) (c c' : EthStateCache)
    (k v q : Nat) (h : c'.cacheId ≠ c.cacheId) :
    cacheGet (cacheInsert w c k v) c' q = cacheGet w c' q := by
  unfold cacheGet cacheInsert
  rw [if_neg h]

/-- C10: `get_reth_api` spawns two distinct state-cache instances — one
passed to the `EthApi` (and the oracle), the other owned by the fee-history
cache — and a value populated through either one is never observable through
the other. -/
theorem C10_two_independent_state_caches
    (openDb : String → Except WiringError DatabaseEnv)
    (openStaticFiles : String → Except WiringError Unit)
    (path : String) (tasks : TaskSpawner) (api : RethApi)
    (h : get_reth_api openDb openStaticFiles path tasks = Except.ok api) :
    api.stateCache ≠ api.feeHistory.cache ∧
    (∀ w k v q,
      cacheGet (cacheInsert w api.stateCache k v) api.feeHistory.cache q =
        cacheGet w api.feeHistory.cache q) ∧
    (∀ w k v q,
      cacheGet (cacheInsert w api.feeHistory.cache k v) api.stateCache q =
        cacheGet w api.stateCache q) := by
  have hs := get_reth_api_ok_shape openDb openStaticFiles path tasks api h
  subst hs
  refine ⟨?_, ?_, ?_⟩
  · intro heq
    have : tasks.nextId = tasks.nextId + 1 := congrArg EthStateCache.cacheId heq
    omega
  · intro w k v q
    exact cacheGet_cacheInsert_ne w _ _ k v q (by simp)
  · intro w k v q
    exact cacheGet_cacheInsert_ne w _ _ k v q (by simp)

theorem C10_two_independent_state_caches_witness :
    get_reth_api openDbOk openStaticOk "node" { nextId := 0 } =
      Except.ok apiFixture ∧
    (apiFixture.stateCache ≠ apiFixture.feeHistory.cache ∧
      (∀ w k v q,
        cacheGet (cacheInsert w apiFixture.stateCache k v)
          apiFixture.feeHistory.cache q =
            cacheGet w apiFixture.feeHistory.cache q) ∧
      (∀ w k v q,
        cacheGet (cacheInsert w apiFixture.feeHistory.cache k v)
          apiFixture.stateCache q = cacheGet w apiFixture.stateCache q)) :=
  ⟨rfl, C10_two_independent_state_caches openDbOk openStaticOk "node"
    { nextId := 0 } apiFixture rfl⟩

/-- Every accepted state-cache operation preserves the invariant that each
cached entry's `valid_at_block` lies on the canonical chain. -/
theorem StateCache.applyOp_valid_at_mem {s s' : StateCache} {op : CacheOp}
    (hinv : ∀ e ∈ s.entries, e.valid_at_block ∈ s.canonical)
    (h : s.applyOp op = some s') :
    ∀ e ∈ s'.entries, e.valid_at_block ∈ s'.canonical := by
  cases op with
  | insert k v b =>
      simp only [StateCache.applyOp] at h
      by_cases hb : b ∈ s.canonical
      · rw [if_pos hb] at h
        injection h with h2
        subst h2
        intro e he
        rcases List.mem_cons.mp he with rfl | he'
        · exact hb
        · exact hinv e he'
      · rw [if_neg hb] at h
        exact Option.noConfusion h
  | notify n =>
      cases n with
      | Commit new =>
          simp only [StateCache.applyOp] at h
          by_cases hc : commitValid s new = true
          · rw [if_pos hc] at h
            injection h with h2
            subst h2
            intro e he
            exact List.mem_append_left new (hinv e he)
          · rw [if_neg hc] at h
            exact Option.noConfusion h
      | Reorg old new =>
          simp only [StateCache.applyOp] at h
          by_cases hr : reorgValid s old new
          · rw [if_pos hr] at h
            injection h with h2
            subst h2
            intro e he
            have hmem := List.mem_filter.mp he
            have hnot : e.valid_at_block ∉ old := of_decide_eq_true hmem.2
            have hcan : e.valid_at_block ∈ s.canonical := hinv e hmem.1
            obtain ⟨hne, hlen, hdrop, hdisj, hpar⟩ := hr
            have hsplit : commonStem s.canonical old ++ old = s.canonical := by
              unfold commonStem
              conv_rhs => rw [← List.take_append_drop
                (s.canonical.length - old.length) s.canonical]
              rw [hdrop]
            rw [← hsplit] at hcan
            rcases List.mem_append.mp hcan with hstem | hold
            · exact List.mem_append_left new hstem
            · exact absurd hold hnot
          · rw [if_neg hr] at h
            exact Option.noConfusion h

/-- Running the state cache from any invariant-satisfying start preserves the
entry/canonical-chain invariant. -/
theorem StateCache.run_valid_at_mem :
    ∀ (ops : List CacheOp) (s s' : StateCache),
      (∀ e ∈ s.entries, e.valid_at_block ∈ s.canonical) →
      s.run ops = some s' →
      ∀ e ∈ s'.entries, e.valid_at_block ∈ s'.canonical := by
  intro ops
  induction ops with
  | nil =>
      intro s s' hinv h
      injection h with h2
      subst h2
      exact hinv
  | cons op rest ih =>
      intro s s' hinv h
      simp only [StateCache.run] at h
      cases hop : s.applyOp op with
      | none => rw [hop] at h; exact Option.noConfusion h
      | some t =>
          rw [hop] at h
          exact ih t s' (StateCache.applyOp_valid_at_mem hinv hop) h

/-- C1: starting from an empty cache, after any accepted sequence of inserts
and `Commit`/`Reorg` notifications, `get` never returns a value whose
`valid_at_block` is not an ancestor of the current canonical head; moreover a
`Reorg` step evicts exactly the entries read on the discarded branch: entries
whose `valid_at_block` lies in `old` are gone, entries on the common-ancestor
stem survive. -/
theorem C1_no_stale_reads (c0 : List BlockRef) (ops : List CacheOp)
    (s : StateCache)
    (h : StateCache.run { canonical := c0, entries := [] } ops = some s) :
    (∀ b k v, s.get b k = some v → isAncestorOfHead s b) ∧
    (∀ (t t' : StateCache) (old new : List BlockRef),
      t.applyOp (CacheOp.notify (CanonStateNotification.Reorg old new)) =
        some t' →
      (∀ e ∈ t.entries, e.valid_at_block ∈ old → e ∉ t'.entries) ∧
      (∀ e ∈ t.entries, e.valid_at_block ∈ commonStem t.canonical old →
        e ∈ t'.entries)) := by
  constructor
  · intro b k v hget
    have hinv := StateCache.run_valid_at_mem ops
      { canonical := c0, entries := [] } s (by intro e he; simp at he) h
    unfold StateCache.get at hget
    cases hfind : s.entries.find?
        (fun e => e.key == k && e.valid_at_block == b) with
    | none => rw [hfind] at hget; exact Option.noConfusion hget
    | some ent =>
        have hmem : ent ∈ s.entries := List.mem_of_find?_eq_some hfind
        have hprop := List.find?_some hfind
        have hb : ent.valid_at_block = b :=
          eq_of_beq ((Bool.and_eq_true _ _).mp hprop).2
        have hcan := hinv ent hmem
        rw [hb] at hcan
        exact hcan
  · intro t t' old new happ
    simp only [StateCache.applyOp] at happ
    by_cases hr : reorgValid t old new
    · rw [if_pos hr] at happ
      injection happ with h2
      subst h2
      constructor
      · intro e he hin hmem'
        have := List.mem_filter.mp hmem'
        exact of_decide_eq_true this.2 hin
      · intro e he hstem
        obtain ⟨hne, hlen, hdrop, hdisj, hpar⟩ := hr
        exact List.mem_filter.mpr ⟨he, decide_eq_true (hdisj _ hstem)⟩
    · rw [if_neg hr] at happ
      exact Option.noConfusion happ

theorem C1_no_stale_reads_witness :
    (StateCache.run { canonical := [blockG], entries := [] } opsFixture =
      some cacheFixture) ∧
    ((∀ b k v, cacheFixture.get b k = some v →
        isAncestorOfHead cacheFixture b) ∧
      (∀ (t t' : StateCache) (old new : List BlockRef),
        t.applyOp (CacheOp.notify (CanonStateNotification.Reorg old new)) =
          some t' →
        (∀ e ∈ t.entries, e.valid_at_block ∈ old → e ∉ t'.entries) ∧
        (∀ e ∈ t.entries, e.valid_at_block ∈ commonStem t.canonical old →
          e ∈ t'.entries))) :=
  ⟨by decide, C1_no_stale_reads [blockG] opsFixture cacheFixture (by decide)⟩

/-- C3: the pool ordering ranks the transaction with the higher effective
priority fee first; at equal effective priority fees the earlier submission
ranks first; and on transactions with distinct submission identifiers the
comparison is a strict total order (trichotomous and transitive). -/
theorem C3_tip_ordering_total (baseFee : Nat) :
    (∀ a b : PooledTransaction,
      effectiveTip baseFee b < effectiveTip baseFee a →
        ranksBefore baseFee a b = true) ∧
    (∀ a b : PooledTransaction,
      effectiveTip baseFee a = effectiveTip baseFee b →
        (ranksBefore baseFee a b = true ↔
          a.submissionId < b.submissionId)) ∧
    (∀ a b : PooledTransaction, a.submissionId ≠ b.submissionId →
      (ranksBefore baseFee a b = true ↔ ¬ranksBefore baseFee b a = true)) ∧
    (∀ a b c : PooledTransaction, ranksBefore baseFee a b = true →
      ranksBefore baseFee b c = true → ranksBefore baseFee a c = true) := by
  refine ⟨?_, ?_, ?_, ?_⟩
  · intro a b hlt
    simp only [ranksBefore, Bool.or_eq_true, Bool.and_eq_true,
      decide_eq_true_eq]
    omega
  · intro a b heq
    simp only [ranksBefore, Bool.or_eq_true, Bool.and_eq_true,
      decide_eq_true_eq]
    omega
  · intro a b hne
    simp only [ranksBefore, Bool.or_eq_true, Bool.and_eq_true,
      decide_eq_true_eq]
    omega
  · intro a b c hab hbc
    simp only [ranksBefore, Bool.or_eq_true, Bool.and_eq_true,
      decide_eq_true_eq] at hab hbc ⊢
    omega

theorem C3_tip_ordering_total_witness :
    effectiveTip 1 txTip3 < effectiveTip 1 txTip5 ∧
    ranksBefore 1 txTip5 txTip3 = true :=
  ⟨by decide, (C3_tip_ordering_total 1).1 txTip5 txTip3 (by decide)⟩

/-- Recording a batch of samples that fits in the remaining capacity appends
them without evicting anything. -/
theorem FeeHistoryWindow.record_foldl_append (l : List FeeSample) :
    ∀ s : FeeHistoryWindow, s.samples.length + l.length ≤ s.capacity →
      l.foldl FeeHistoryWindow.record s =
        { capacity := s.capacity, samples := s.samples ++ l } := by
  induction l with
  | nil => intro s hlen; simp
  | cons fs rest ih =>
      intro s hlen
      rw [List.foldl_cons]
      have hnot : ¬s.capacity < (s.samples ++ [fs]).length := by
        simp only [List.length_append, List.length_cons, List.length_nil]
        simp only [List.length_cons] at hlen
        omega
      have hrec : s.record fs =
          { capacity := s.capacity, samples := s.samples ++ [fs] } := by
        unfold FeeHistoryWindow.record
        rw [if_neg hnot]
      rw [hrec, ih]
      · simp
      · simp only [List.length_append, List.length_cons, List.length_nil]
        simp only [List.length_cons] at hlen
        omega

/-- C4: recording N fee samples at consecutive block numbers into a window of
sufficient capacity and querying the full recorded range returns exactly
those N samples (which are ordered by block number); and any range query
whose range starts before the window's oldest retained sample fails with
`InsufficientHistory`. -/
theorem C4_fee_history_round_trip :
    (∀ (cap first N : Nat) (f : Nat → FeeSample),
      0 < N → N ≤ cap →
      (∀ i < N, (f i).block_number = first + i) →
      (((List.range N).map f).foldl FeeHistoryWindow.record
          { capacity := cap, samples := [] }).range_query first N =
        Except.ok ((List.range N).map f)) ∧
    (∀ (first N : Nat) (f : Nat → FeeSample),
      (∀ i < N, (f i).block_number = first + i) →
      ((List.range N).map f).Pairwise
        (fun a b => a.block_number < b.block_number)) ∧
    (∀ (w : FeeHistoryWindow) (oldest : FeeSample) (first cnt : Nat),
      w.samples.head? = some oldest → first < oldest.block_number →
      w.range_query first cnt =
        Except.error FeeHistoryError.InsufficientHistory) := by
  refine ⟨?_, ?_, ?_⟩
  · intro cap first N f hN hcap hf
    have hfold := FeeHistoryWindow.record_foldl_append ((List.range N).map f)
      { capacity := cap, samples := [] } (by simpa using hcap)
    rw [hfold]
    have hhead : ((List.range N).map f).head? = some (f 0) := by
      cases N with
      | zero => omega
      | succ M => simp [List.range_succ_eq_map]
    have h0 : (f 0).block_number = first := by simpa using hf 0 hN
    have hfilter : ((List.range N).map f).filter
        (fun fs => decide (first ≤ fs.block_number) &&
          decide (fs.block_number < first + N)) = (List.range N).map f := by
      rw [List.filter_eq_self]
      intro fs hfs
      obtain ⟨i, hi, rfl⟩ := List.mem_map.mp hfs
      have hiN : i < N := List.mem_range.mp hi
      have hbn := hf i hiN
      simp only [hbn, Bool.and_eq_true, decide_eq_true_eq]
      omega
    unfold FeeHistoryWindow.range_query
    simp only [List.nil_append]
    split
    · rename_i heq
      rw [hhead] at heq
      exact Option.noConfusion heq
    · rename_i oldest2 heq
      rw [hhead] at heq
      injection heq with h2
      subst h2
      rw [h0, if_neg (lt_irrefl first), hfilter]
  · intro first N f hf
    rw [List.pairwise_map]
    have hpw : (List.range N).Pairwise (· < ·) := List.pairwise_lt_range N
    refine hpw.imp_of_mem ?_
    intro i j hi hj hij
    have hiN : i < N := List.mem_range.mp hi
    have hjN : j < N := List.mem_range.mp hj
    rw [hf i hiN, hf j hjN]
    omega
  · intro w oldest first cnt hhead hlt
    unfold FeeHistoryWindow.range_query
    split
    · rfl
    · rename_i oldest2 heq
      rw [hhead] at heq
      injection heq with h2
      subst h2
      rw [if_pos hlt]

theorem C4_fee_history_round_trip_witness :
    (0 < 2 ∧ 2 ≤ 4 ∧
      ∀ i < 2, ((fun j => feeSampleAt (10 + j)) i).block_number = 10 + i) ∧
    (((List.range 2).map (fun j => feeSampleAt (10 + j))).foldl
        FeeHistoryWindow.record { capacity := 4, samples := [] }).range_query
          10 2 =
      Except.ok ((List.range 2).map (fun j => feeSampleAt (10 + j))) :=
  ⟨⟨by decide, by decide, by decide⟩,
    C4_fee_history_round_trip.1 4 10 2 (fun j => feeSampleAt (10 + j))
      (by decide) (by decide) (by decide)⟩

/-- C5: submitting a transaction that collides with a pooled transaction on
sender and nonce succeeds exactly when the bump rule holds — the newcomer
then replaces the occupant of that slot — and is otherwise rejected with
`Underpriced`, leaving the pool (and so the existing transaction) unchanged. -/
theorem C5_replacement_underpriced
    (p : TxPool) (baseFee : Nat) (tx oldTx : PooledTransaction)
    (hfind : p.txs.find? (fun t => sameSenderNonce t tx) = some oldTx) :
    (bumpSatisfied p.config oldTx tx baseFee = true →
      (p.submit baseFee tx).1 = Except.ok tx.hash ∧
      tx ∈ (p.submit baseFee tx).2.txs ∧
      (∀ t ∈ (p.submit baseFee tx).2.txs,
        sameSenderNonce t tx = true → t = tx)) ∧
    (bumpSatisfied p.config oldTx tx baseFee = false →
      (p.submit baseFee tx).1 = Except.error SubmitError.Underpriced ∧
      (p.submit baseFee tx).2 = p ∧
      oldTx ∈ (p.submit baseFee tx).2.txs) := by
  have hold : oldTx ∈ p.txs := List.mem_of_find?_eq_some hfind
  constructor
  · intro hbump
    have hsub : p.submit baseFee tx =
        (Except.ok tx.hash,
          { p with
            txs := tx :: p.txs.filter (fun t => !sameSenderNonce t tx) }) := by
      simp only [TxPool.submit, hfind, hbump, if_true]
    rw [hsub]
    refine ⟨rfl, List.mem_cons_self _ _, ?_⟩
    intro t ht hsame
    rcases List.mem_cons.mp ht with rfl | hmem
    · rfl
    · have := (List.mem_filter.mp hmem).2
      rw [hsame] at this
      exact absurd this (by simp)
  · intro hbump
    have hsub : p.submit baseFee tx = (Except.error SubmitError.Underpriced, p) := by
      simp only [TxPool.submit, hfind, hbump, Bool.false_eq_true, if_false]
    rw [hsub]
    exact ⟨rfl, rfl, hold⟩

theorem C5_replacement_underpriced_witness :
    poolFixture.txs.find? (fun t => sameSenderNonce t txBump) = some txTip5 ∧
    ((bumpSatisfied poolFixture.config txTip5 txBump 1 = true →
      (poolFixture.submit 1 txBump).1 = Except.ok txBump.hash ∧
      txBump ∈ (poolFixture.submit 1 txBump).2.txs ∧
      (∀ t ∈ (poolFixture.submit 1 txBump).2.txs,
        sameSenderNonce t txBump = true → t = txBump)) ∧
    (bumpSatisfied poolFixture.config txTip5 txBump 1 = false →
      (poolFixture.submit 1 txBump).1 = Except.error SubmitError.Underpriced ∧
      (poolFixture.submit 1 txBump).2 = poolFixture ∧
      txTip5 ∈ (poolFixture.submit 1 txBump).2.txs)) :=
  ⟨by decide, C5_replacement_underpriced poolFixture 1 txBump txTip5 (by decide)⟩

/-- The concatenation of the non-empty blocks is empty exactly when every
block is empty. -/
theorem flatten_filter_eq_nil_iff (blocks : List (List Nat)) :
    (blocks.filter (fun b => !b.isEmpty)).flatten = [] ↔
      ∀ b ∈ blocks, b = [] := by
  induction blocks with
  | nil => simp
  | cons hd tl ih =>
      by_cases hhd : hd.isEmpty
      · have hhd' : hd = [] := List.isEmpty_iff.mp hhd
        subst hhd'
        simp [List.filter_cons, ih]
      · have hhd' : hd ≠ [] := by simpa [List.isEmpty_iff] using hhd
        rw [List.filter_cons]
        simp only [hhd, Bool.not_false, if_true]
        simp [List.flatten_cons, hhd']

/-- C6: the oracle fails with `NoSamplesAvailable` exactly when every block in
the sample window is empty, and an empty block anywhere in the window
contributes nothing — removing it leaves the suggestion unchanged (it is
skipped, never treated as a zero-price sample). -/
theorem C6_oracle_skips_empty_blocks :
    (∀ (blocks : List (List Nat)) (pct : Nat),
      suggest_price blocks pct =
          Except.error OracleError.NoSamplesAvailable ↔
        ∀ b ∈ blocks, b = []) ∧
    (∀ (bs1 bs2 : List (List Nat)) (pct : Nat),
      suggest_price (bs1 ++ [] :: bs2) pct =
        suggest_price (bs1 ++ bs2) pct) := by
  constructor
  · intro blocks pct
    by_cases hemp :
        ((blocks.filter (fun b => !b.isEmpty)).flatten).isEmpty = true
    · have hnil := List.isEmpty_iff.mp hemp
      have hall := (flatten_filter_eq_nil_iff blocks).mp hnil
      simp only [suggest_price, hemp, if_true]
      exact ⟨fun _ => hall, fun _ => trivial⟩
    · constructor
      · intro h
        exfalso
        simp only [suggest_price, hemp, Bool.false_eq_true, if_false] at h
        revert h
        simp
      · intro hall
        exfalso
        exact hemp (List.isEmpty_iff.mpr
          ((flatten_filter_eq_nil_iff blocks).mpr hall))
  · intro bs1 bs2 pct
    have hfe : (bs1 ++ [] :: bs2).filter (fun b => !b.isEmpty) =
        (bs1 ++ bs2).filter (fun b => !b.isEmpty) := by
      simp [List.filter_append, List.filter_cons]
    simp only [suggest_price, hfe]

theorem C6_oracle_skips_empty_blocks_witness :
    (∀ b ∈ ([[], []] : List (List Nat)), b = []) ∧
    suggest_price [[], []] 50 =
      Except.error OracleError.NoSamplesAvailable :=
  ⟨by decide, (C6_oracle_skips_empty_blocks.1 [[], []] 50).mpr (by decide)⟩

/-- C7: on the bounded broadcast channel, the producer's send always appends
(no subscriber can block it); a subscriber overrun by the buffer gets a lagged
error naming its gap instead of silently skipping anything; a successful
receive delivers exactly the next notification in send order and advances the
cursor by one; a lagged subscriber stays lagged under further sends (it must
resubscribe); and a fresh subscription is never lagged. -/
theorem C7_lagged_subscriber_policy :
    (∀ (ch : BroadcastChannel) (n : CanonStateNotification),
      (ch.send n).sentCount = ch.sentCount + 1 ∧
      (ch.send n).history = ch.history ++ [n]) ∧
    (∀ (ch : BroadcastChannel) (sub : Subscriber),
      sub.cursor < ch.oldestRetained →
      ch.recv sub = RecvOutcome.LaggedBy (ch.oldestRetained - sub.cursor)) ∧
    (∀ (ch : BroadcastChannel) (sub : Subscriber)
        (n : CanonStateNotification) (next : Subscriber),
      ch.recv sub = RecvOutcome.Received n next →
      ch.history[sub.cursor]? = some n ∧ next.cursor = sub.cursor + 1) ∧
    (∀ (ch : BroadcastChannel) (sub : Subscriber)
        (n : CanonStateNotification),
      sub.cursor < ch.oldestRetained →
      (ch.send n).recv sub =
        RecvOutcome.LaggedBy ((ch.send n).oldestRetained - sub.cursor)) ∧
    (∀ ch : BroadcastChannel, ch.oldestRetained ≤ ch.subscribe.cursor) := by
  refine ⟨?_, ?_, ?_, ?_, ?_⟩
  · intro ch n
    constructor
    · simp [BroadcastChannel.send, BroadcastChannel.sentCount]
    · rfl
  · intro ch sub h
    unfold BroadcastChannel.recv
    rw [if_pos h]
  · intro ch sub n next h
    unfold BroadcastChannel.recv at h
    by_cases hlag : sub.cursor < ch.oldestRetained
    · rw [if_pos hlag] at h
      exact RecvOutcome.noConfusion h
    · rw [if_neg hlag] at h
      cases hget : ch.history[sub.cursor]? with
      | none => rw [hget] at h; exact RecvOutcome.noConfusion h
      | some m =>
          rw [hget] at h
          injection h with h1 h2
          subst h1
          exact ⟨rfl, congrArg Subscriber.cursor h2.symm⟩
  · intro ch sub n h
    have hlt : sub.cursor < (ch.send n).oldestRetained := by
      simp only [BroadcastChannel.oldestRetained, BroadcastChannel.sentCount,
        BroadcastChannel.send, List.length_append, List.length_cons,
        List.length_nil] at h ⊢
      omega
    unfold BroadcastChannel.recv
    rw [if_pos hlt]
  · intro ch
    simp only [BroadcastChannel.oldestRetained, BroadcastChannel.subscribe,
      BroadcastChannel.sentCount]
    omega

theorem C7_lagged_subscriber_policy_witness :
    (({ cursor := 0 } : Subscriber).cursor < chanFixture.oldestRetained) ∧
    chanFixture.recv { cursor := 0 } =
      RecvOutcome.LaggedBy
        (chanFixture.oldestRetained - ({ cursor := 0 } : Subscriber).cursor) :=
  ⟨by decide, C7_lagged_subscriber_policy.2.1 chanFixture { cursor := 0 }
    (by decide)⟩
